import Mathlib

/-!
Shallow embedding of the GEES2Downloader repository
(`src/geeS2downloader/gee.py` and `src/geeS2downloader/common.py`).

Modelling conventions:
* Python lists / bytes objects become `List`; `None`-able results become `Option`.
* Machine floats are idealised as exact arithmetic: `math.sqrt`/`1.3` are read
  as the exact real square root / the rational `13/10`, and `int(...)` on a
  non-negative value as the floor.  In particular
  `int(math.sqrt(ms / size) * dim) = Nat.sqrt (ms * dim * dim / size)`,
  using that `⌊Real.sqrt x⌋ = Nat.sqrt ⌊x⌋` for `0 ≤ x` and that
  `⌊(ms / size) * dim ^ 2⌋ = ms * dim * dim / size` in natural division.
* The `while` loops of `_create_tiles` are embedded with explicit fuel: the
  Python loop either terminates (the fueled function returns `some` for all
  sufficiently large fuel) or loops forever (it returns `none` for every fuel).
* A raised exception is an `Except.error`; a raised `IndexError` from an
  out-of-range subscript is an outer `none`.
-/

/-- A tile of `gee.py`: the half-open pixel region
`[yStart, yStop) × [xStart, xStop)` given by `slice_y` and `slice_x`.
The reference to the owning `band_info` dictionary is not carried here; none
of the modelled operations on tiles read it. -/
structure Tile where
  yStart : Nat
  yStop : Nat
  xStart : Nat
  xStop : Nat
deriving Repr, DecidableEq

/-- `Tile.shape`: `(slice_y.stop - slice_y.start, slice_x.stop - slice_x.start)`. -/
def Tile.shape (t : Tile) : Nat × Nat :=
  (t.yStop - t.yStart, t.xStop - t.xStart)

/-- `Tile.size`: `int(self.shape[0] * self.shape[1] * 1.3)` with the float
literal `1.3` read as the exact rational `13/10` and `int` as floor. -/
def Tile.size (t : Tile) : Int :=
  Int.floor ((t.shape.1 * t.shape.2 : Nat) * (13 / 10 : Rat))

/-- Documented estimated-byte-size formula of the specification:
`height * width * 2 * overheadFactor`, for an arbitrary overhead factor. -/
def tileSizeDocumented (t : Tile) (overheadFactor : Rat) : Rat :=
  (t.shape.1 : Rat) * t.shape.2 * 2 * overheadFactor

/-- Membership of the pixel `(y, x)` in the tile's half-open region. -/
def Tile.containsB (t : Tile) (y x : Nat) : Bool :=
  decide (t.yStart ≤ y ∧ y < t.yStop ∧ t.xStart ≤ x ∧ x < t.xStop)

/-- The band metadata dictionary `self.band_info`: `dimensions`, the
`data_type` range, and the `nominal_scale` entry added by `download`. -/
structure BandInfo where
  dim0 : Nat
  dim1 : Nat
  dtMin : Int
  dtMax : Int
  nominal_scale : Nat
deriving Repr, DecidableEq

/-- `GEES2Downloader._estimate_band_size`, initialized case.  The source
computes `bits = math.log2(values_range)` and `bts = bits / 8` and then uses
neither: the returned value is `dimensions[0] * dimensions[1] * 2 *
excess_factor`.  The two dead local bindings are kept (with `math.log2` on the
integral range modelled by `Nat.log2`). -/
def estimateBandSizeCore (bi : BandInfo) (excess_factor : Nat) : Nat :=
  let values_range : Int := bi.dtMax - bi.dtMin + 1
  let bits : Nat := Nat.log2 values_range.toNat
  let bts : Nat := bits / 8
  bi.dim0 * bi.dim1 * 2 * excess_factor

/-- `GEES2Downloader._estimate_band_size`: returns `None` (here `none`) after a
warning when `self.band_info is None`. -/
def estimate_band_size (obi : Option BandInfo) (excess_factor : Nat) : Option Nat :=
  obi.map (fun bi => estimateBandSizeCore bi excess_factor)

/-- `step_y = int(rescale_factor * dimension[0])` (and likewise `step_x`),
where `rescale_factor = math.sqrt(max_size / size)`: in exact arithmetic this
is `Nat.sqrt (max_size * dim * dim / size)`. -/
def stepOf (dim size max_size : Nat) : Nat :=
  Nat.sqrt (max_size * dim * dim / size)

/-- The step along the first dimension computed by `_create_tiles`. -/
def stepY (bi : BandInfo) (max_size : Nat) : Nat :=
  stepOf bi.dim0 (estimateBandSizeCore bi 2) max_size

/-- The step along the second dimension computed by `_create_tiles`. -/
def stepX (bi : BandInfo) (max_size : Nat) : Nat :=
  stepOf bi.dim1 (estimateBandSizeCore bi 2) max_size

/-- The inner `while j < dimension[1]` loop of `_create_tiles`, with fuel.
Each iteration appends the tile with
`slice_y = (i, i + step_y if i + step_y < h else h)` and
`slice_x = (j, j + step_x if j + step_x < w else w)` and advances `j` by
`step_x`.  `none` means the fuel ran out before the loop exited. -/
def sweepX (fuel h w sy sx i j : Nat) : Option (List Tile) :=
  match fuel with
  | 0 => none
  | fuel + 1 =>
    if j < w then
      match sweepX fuel h w sy sx i (j + sx) with
      | none => none
      | some ts =>
        some ({ yStart := i, yStop := if i + sy < h then i + sy else h,
                xStart := j, xStop := if j + sx < w then j + sx else w } :: ts)
    else
      some []

/-- The outer `while i < dimension[0]` loop of `_create_tiles`, with fuel:
each iteration runs the inner loop from `j = 0` and advances `i` by `step_y`. -/
def sweepY (fuel fx h w sy sx i : Nat) : Option (List Tile) :=
  match fuel with
  | 0 => none
  | fuel + 1 =>
    if i < h then
      match sweepX fx h w sy sx i 0, sweepY fuel fx h w sy sx (i + sy) with
      | some row, some rest => some (row ++ rest)
      | _, _ => none
    else
      some []

/-- `GEES2Downloader._create_tiles` (initialized case), with explicit fuel for
the sweep loops.  `rescale_factor > 1` holds exactly when `size < max_size`
(for a positive `size`), in which case a single whole-grid tile is returned;
otherwise the grid is swept with steps `stepY`/`stepX`.  The source applies no
lower clamp to the steps. -/
def createTilesFuel (bi : BandInfo) (max_size fuel : Nat) : Option (List Tile) :=
  let size := estimateBandSizeCore bi 2
  if size < max_size then
    some [{ yStart := 0, yStop := bi.dim0, xStart := 0, xStop := bi.dim1 }]
  else
    sweepY fuel fuel bi.dim0 bi.dim1 (stepY bi max_size) (stepX bi max_size) 0

/-- `_create_tiles` with canonical fuel, sufficient whenever both sweep steps
are at least `1`. -/
def create_tiles (bi : BandInfo) (max_size : Nat) : Option (List Tile) :=
  createTilesFuel bi max_size (max bi.dim0 bi.dim1 + 1)

/-- The tiling sweep of `_create_tiles` makes no progress on these inputs: the
fueled embedding returns `none` for every fuel, i.e. the source loops
forever. -/
def createTilesDiverges (bi : BandInfo) (max_size : Nat) : Prop :=
  ∀ fuel, createTilesFuel bi max_size fuel = none

/-- The chunk loop of `common.open_url`: for each truthy (non-empty) chunk the
source writes the chunk to the in-memory buffer and calls `pbar.update(1024)`
(the fixed chunk size, not the chunk's length).  State is `(buffer, pbar.n)`. -/
def openUrlLoop (chunks : List (List Nat)) (mem : List Nat) (n : Nat) :
    List Nat × Nat :=
  match chunks with
  | [] => (mem, n)
  | c :: cs =>
    if c = [] then openUrlLoop cs mem n
    else openUrlLoop cs (mem ++ c) (n + 1024)

/-- `common.open_url` over a streamed body delivered as a list of chunks, with
a progress bar of total `total` starting at `0`: after the loop, if
`pbar.n < pbar.total` the source calls `pbar.update(pbar.total - pbar.n)`.
Returns the buffer and the final counter. -/
def open_url (chunks : List (List Nat)) (total : Nat) : List Nat × Nat :=
  let st := openUrlLoop chunks [] 0
  (st.1, if st.2 < total then st.2 + (total - st.2) else st.2)

/-- `common.open_zip_url`: download the body via `open_url`, hand the buffer to
the archive collaborator (`zipfile`, abstracted as `unzip`, returning the list
of entry contents), and read the first entry `z.filelist[0]`.  The outer
`none` models the `IndexError` raised on an archive with no entries. -/
def open_zip_url (chunks : List (List Nat)) (total : Nat)
    (unzip : List Nat → List (List Nat)) : Option (List Nat) :=
  let content := (open_url chunks total).1
  (unzip content).head?

/-- A geographic point: a coordinate tuple, floats idealised as rationals. -/
abbrev GeoPoint := Rat × Rat

/-- A `geojson` geometry as used by `common.create_geometry`. -/
inductive Geometry where
  | point (coordinates : GeoPoint)
  | polygon (coordinates : List (List GeoPoint))
deriving Repr, DecidableEq

/-- Validity of one linear ring per the `geojson` library: at least four
positions and first position equal to the last. -/
def ringValid (r : List GeoPoint) : Bool :=
  decide (4 ≤ r.length ∧ r.head? = r.getLast?)

/-- `geojson`'s `is_valid` check on the geometries built by
`create_geometry`: a `Point` is valid; a `Polygon` is valid when every ring
is. -/
def Geometry.isValid : Geometry → Bool
  | .point _ => true
  | .polygon rings => rings.all ringValid

/-- The argument of `common.create_geometry`: a coordinate tuple, an
already-built geometry, or a list of points (a mutable Python list). -/
inductive GeomInput where
  | tuple (p : GeoPoint)
  | geom (g : Geometry)
  | pts (l : List GeoPoint)
deriving Repr, DecidableEq

/-- `common.create_geometry`.  The result pairs the returned geometry
(`none` when `is_valid` fails: the source logs or prints and falls through
returning `None`) with the argument as the caller observes it afterwards: in
the list branch the source mutates the caller's list in place with
`pts.append(pts[0])` when `pts[0] != pts[-1]`.  The outer `none` models the
`IndexError` of `pts[0]` on an empty list. -/
def create_geometry (input : GeomInput) : Option (Option Geometry × GeomInput) :=
  match input with
  | .tuple p =>
    let g := Geometry.point p
    some ((if g.isValid then some g else none), .tuple p)
  | .geom g =>
    some ((if g.isValid then some g else none), .geom g)
  | .pts l =>
    match l.head?, l.getLast? with
    | some p0, some pn =>
      let l2 := if p0 ≠ pn then l ++ [p0] else l
      let g := Geometry.polygon [l2]
      some ((if g.isValid then some g else none), .pts l2)
    | _, _ => none

/-- A decoded pixel block (or the output matrix): sample value at `(y, x)`.
`numpy` array contents are idealised as unbounded integers. -/
abbrev Block := Nat → Nat → Int

/-- `img_array[tile.slices] = block`: pixels inside the tile's region take the
block's values (indexed relative to the tile's origin), others are kept. -/
def writeTile (m : Block) (t : Tile) (b : Block) : Block :=
  fun y x => if t.containsB y x then b (y - t.yStart) (x - t.xStart) else m y x

/-- The assembly loop of `_download_band`
(`for tile, worker in zip(self.tiles, workers): img_array[tile.slices] =
worker.result()`): `worker.result()` re-raises a failed worker's exception, so
the loop aborts at the first failed task and the exception propagates — no
matrix is returned and the remaining tiles are not copied. -/
def assemble (tasks : List (Tile × Except String Block)) (m : Block) :
    Except String Block :=
  match tasks with
  | [] => .ok m
  | (_, .error e) :: _ => .error e
  | (t, .ok b) :: rest => assemble rest (writeTile m t b)

/-- An `ee.Image` as seen by `download`: its band names, the per-band
metadata dictionary `get('system:bands').getInfo()`, and the projection's
nominal scale. -/
structure EEImage where
  bandNames : List String
  bandData : String → BandInfo
  nominalScale : Nat

/-- The mutable fields of a `GEES2Downloader` instance (the selected image is
recorded as the pair of source image and band name). -/
structure Downloader where
  img : Option (EEImage × String)
  band : Option String
  band_info : Option BandInfo
  tiles : Option (List Tile)
  array : Option Block

/-- Observable outcome of a `download` call. -/
inductive DownloadOutcome where
  | finished
  | bandNotFound
  | tileFailed (e : String)

/-- `GEES2Downloader._download_band`, with the per-tile network fetch
(`Tile.download`, i.e. URL issuance + HTTP + unzip + decode) abstracted as
`fetch`.  The source allocates a zero matrix, creates the tiles with the
default `max_size`, launches one worker per tile, and assembles the results.
The outer `none` models the divergence of the tiling sweep. -/
def download_band (bi : BandInfo) (fetch : Tile → Except String Block) :
    Option (List Tile × Except String Block) :=
  match create_tiles bi 33554432 with
  | none => none
  | some tiles => some (tiles, assemble (tiles.map fun t => (t, fetch t)) (fun _ _ => 0))

/-- `GEES2Downloader.download`: if `img.bandNames().contains(band)` fails, the
source logs an error and returns, touching no field; otherwise it sets
`self.img`, `self.band`, `self.band_info` (augmented with the nominal scale),
runs `_download_band` (which sets `self.tiles`), and stores the assembled
matrix in `self.array`.  A worker's exception propagates out of
`_download_band.` before `self.array` is assigned. -/
def download (st : Downloader) (img : EEImage) (band : String)
    (fetch : Tile → Except String Block) : Option (Downloader × DownloadOutcome) :=
  if img.bandNames.contains band then
    let bi := { img.bandData band with nominal_scale := img.nominalScale }
    let st1 := { st with img := some (img, band), band := some band,
                         band_info := some bi }
    match download_band bi fetch with
    | none => none
    | some (tiles, .error e) => some ({ st1 with tiles := some tiles }, .tileFailed e)
    | some (tiles, .ok arr) =>
      some ({ st1 with tiles := some tiles, array := some arr }, .finished)
  else
    some (st, .bandNotFound)

/-- The all-zero block, `np.zeros(...)`. -/
def zeroBlock : Block := fun _ _ => 0

/-- A constant demonstration pixel block. -/
def oneBlock : Block := fun _ _ => 1

/-- A demonstration image carrying two bands. -/
def demoImage : EEImage :=
  { bandNames := ["B2", "B3"],
    bandData := fun _ => ⟨5, 7, 0, 255, 0⟩,
    nominalScale := 10 }

/-- A freshly constructed downloader: every field is `None`. -/
def emptyDownloader : Downloader :=
  { img := none, band := none, band_info := none, tiles := none, array := none }

/-- A demonstration fetcher that always succeeds. -/
def demoFetch : Tile → Except String Block := fun _ => Except.ok oneBlock

/-- A demonstration archive collaborator: every archive decodes to two
entries, the raw content and one extra entry. -/
def demoUnzip : List Nat → List (List Nat) := fun bs => [bs, [9]]

/-- A demonstration unclosed square ring. -/
def demoRing : List GeoPoint := [(0, 0), (1, 0), (1, 1), (0, 1)]

/-! ### Helper lemmas -/

theorem ite_lt_eq_min (a b : Nat) : (if a < b then a else b) = min a b := by
  split <;> omega

/-- The pixels of a tile emitted by the sweep, via `Tile.containsB`. -/
theorem containsB_eq (t : Tile) (y x : Nat) :
    t.containsB y x =
      decide (t.yStart ≤ y ∧ y < t.yStop ∧ t.xStart ≤ x ∧ x < t.xStop) := rfl

/-- Inner-loop invariant: with a positive `x`-step and enough fuel, the inner
sweep from column `j` returns a row of tiles that covers each pixel of
`[i, min (i+sy) h) × [j, w)` exactly once and stays inside the grid. -/
theorem sweepX_spec (h w sy sx i : Nat) (hsx : 1 ≤ sx) :
    ∀ fuel j, w < j + fuel → 1 ≤ fuel →
      ∃ row, sweepX fuel h w sy sx i j = some row ∧
        (∀ t ∈ row, t.yStart = i ∧ t.yStop = min (i + sy) h ∧
          j ≤ t.xStart ∧ t.xStop ≤ w) ∧
        (∀ y x, row.countP (fun t => t.containsB y x) =
          if i ≤ y ∧ y < min (i + sy) h ∧ j ≤ x ∧ x < w then 1 else 0) := by
  intro fuel
  induction fuel with
  | zero => intro j _ hf1; omega
  | succ n ih =>
    intro j hj _
    by_cases hjw : j < w
    · have hn1 : 1 ≤ n := by omega
      obtain ⟨row, hrow, hb, hc⟩ := ih (j + sx) (by omega) hn1
      refine ⟨{ yStart := i, yStop := if i + sy < h then i + sy else h,
                xStart := j, xStop := if j + sx < w then j + sx else w } :: row,
              ?_, ?_, ?_⟩
      · simp only [sweepX, if_pos hjw, hrow]
      · intro t ht
        rcases List.mem_cons.mp ht with rfl | ht
        · refine ⟨rfl, ?_, Nat.le_refl j, ?_⟩
          · show (if i + sy < h then i + sy else h) = min (i + sy) h
            split <;> omega
          · show (if j + sx < w then j + sx else w) ≤ w
            split <;> omega
        · obtain ⟨h1, h2, h3, h4⟩ := hb t ht
          exact ⟨h1, h2, by omega, h4⟩
      · intro y x
        rw [List.countP_cons, hc y x]
        simp only [containsB_eq, decide_eq_true_eq]
        split_ifs <;> omega
    · refine ⟨[], ?_, by simp, ?_⟩
      · simp only [sweepX, if_neg hjw]
      · intro y x
        rw [List.countP_nil]
        split_ifs with hcond
        · omega
        · rfl

/-- Outer-loop invariant: with positive steps and enough fuel, the sweep from
row `i` covers each pixel of `[i, h) × [0, w)` exactly once and stays inside
the grid. -/
theorem sweepY_spec (h w sy sx fx : Nat) (hsy : 1 ≤ sy) (hsx : 1 ≤ sx)
    (hfx : w < fx) (hfx1 : 1 ≤ fx) :
    ∀ fuel i, h < i + fuel → 1 ≤ fuel →
      ∃ ts, sweepY fuel fx h w sy sx i = some ts ∧
        (∀ t ∈ ts, t.yStop ≤ h ∧ t.xStop ≤ w) ∧
        (∀ y x, ts.countP (fun t => t.containsB y x) =
          if i ≤ y ∧ y < h ∧ x < w then 1 else 0) := by
  intro fuel
  induction fuel with
  | zero => intro i _ hf1; omega
  | succ n ih =>
    intro i hi _
    by_cases hih : i < h
    · have hn1 : 1 ≤ n := by omega
      obtain ⟨row, hrow, hbr, hcr⟩ :=
        sweepX_spec h w sy sx i hsx fx 0 (by omega) hfx1
      obtain ⟨rest, hrest, hbt, hct⟩ := ih (i + sy) (by omega) hn1
      refine ⟨row ++ rest, ?_, ?_, ?_⟩
      · simp only [sweepY, if_pos hih, hrow, hrest]
      · intro t ht
        rcases List.mem_append.mp ht with ht | ht
        · obtain ⟨_, h2, _, h4⟩ := hbr t ht
          exact ⟨by omega, h4⟩
        · exact hbt t ht
      · intro y x
        rw [List.countP_append, hcr y x, hct y x]
        split_ifs <;> omega
    · refine ⟨[], ?_, by simp, ?_⟩
      · simp only [sweepY, if_neg hih]
      · intro y x
        rw [List.countP_nil]
        split_ifs with hcond
        · omega
        · rfl

/-- When the `y`-step is `0` and a row remains, the outer sweep never
terminates: it returns `none` for every amount of fuel. -/
theorem sweepY_zero_step (fx h w sx i : Nat) (hi : i < h) :
    ∀ fuel, sweepY fuel fx h w 0 sx i = none := by
  intro fuel
  induction fuel with
  | zero => rfl
  | succ n ih =>
    simp only [sweepY, if_pos hi, Nat.add_zero, ih]
    cases sweepX fx h w 0 sx i 0 <;> rfl

/-! ### Claim theorems -/

/-- C1 (amended): for a band with positive dimensions and any byte budget for
which both computed sweep steps are at least one pixel (which always holds in
the single-tile case, i.e. when the estimate is below the budget), the tile
list produced by `_create_tiles` is an exact partition of the pixel grid
`[0, dim0) × [0, dim1)`: no tile extends past the grid boundary and every
pixel belongs to exactly one tile (hence no two tiles overlap).  When a step
rounds to zero no tile list is produced at all (the sweep loops forever). -/
theorem create_tiles_exact_partition (bi : BandInfo) (ms : Nat)
    (hd0 : 0 < bi.dim0) (hd1 : 0 < bi.dim1)
    (hsy : 1 ≤ stepY bi ms) (hsx : 1 ≤ stepX bi ms) :
    ∃ ts, create_tiles bi ms = some ts ∧
      (∀ t ∈ ts, t.yStop ≤ bi.dim0 ∧ t.xStop ≤ bi.dim1) ∧
      (∀ y x, y < bi.dim0 → x < bi.dim1 →
        ts.countP (fun t => t.containsB y x) = 1) := by
  by_cases hs : estimateBandSizeCore bi 2 < ms
  · refine ⟨[{ yStart := 0, yStop := bi.dim0, xStart := 0, xStop := bi.dim1 }],
      ?_, ?_, ?_⟩
    · unfold create_tiles createTilesFuel
      rw [if_pos hs]
    · intro t ht
      rw [List.mem_singleton] at ht
      subst ht
      exact ⟨Nat.le_refl _, Nat.le_refl _⟩
    · intro y x hy hx
      rw [List.countP_cons, List.countP_nil]
      simp only [containsB_eq, decide_eq_true_eq]
      split_ifs <;> omega
  · obtain ⟨ts, heq, hb, hc⟩ :=
      sweepY_spec bi.dim0 bi.dim1 (stepY bi ms) (stepX bi ms)
        (max bi.dim0 bi.dim1 + 1) hsy hsx (by omega) (by omega)
        (max bi.dim0 bi.dim1 + 1) 0 (by omega) (by omega)
    refine ⟨ts, ?_, hb, ?_⟩
    · unfold create_tiles createTilesFuel
      rw [if_neg hs]
      exact heq
    · intro y x hy hx
      rw [hc y x, if_pos ⟨Nat.zero_le y, hy, hx⟩]

/-- C1 witness: a 5 × 7 band with a 50-byte budget (estimate 140) is swept
into tiles that exactly partition the grid. -/
theorem create_tiles_exact_partition_witness :
    0 < (5 : Nat) ∧ 0 < (7 : Nat) ∧
    1 ≤ stepY ⟨5, 7, 0, 255, 10⟩ 50 ∧ 1 ≤ stepX ⟨5, 7, 0, 255, 10⟩ 50 ∧
    ∃ ts, create_tiles ⟨5, 7, 0, 255, 10⟩ 50 = some ts ∧
      (∀ t ∈ ts, t.yStop ≤ 5 ∧ t.xStop ≤ 7) ∧
      (∀ y x, y < 5 → x < 7 → ts.countP (fun t => t.containsB y x) = 1) := by
  have hy : 1 ≤ stepY ⟨5, 7, 0, 255, 10⟩ 50 := by
    unfold stepY stepOf
    exact Nat.le_sqrt.mpr (by decide)
  have hx : 1 ≤ stepX ⟨5, 7, 0, 255, 10⟩ 50 := by
    unfold stepX stepOf
    exact Nat.le_sqrt.mpr (by decide)
  exact ⟨by decide, by decide, hy, hx,
    create_tiles_exact_partition ⟨5, 7, 0, 255, 10⟩ 50 (by decide) (by decide) hy hx⟩

/-- C1 counterexample: for the band of dimensions `(1, 8)` and budget `1`
(estimate 32, so the multi-tile sweep runs) the computed `step_y` is
`int(sqrt(1/32) * 1) = 0` and the outer sweep never advances: no tile list is
produced for any amount of fuel, refuting the claim for "every byte
budget". -/
theorem create_tiles_not_total_cex :
    createTilesDiverges ⟨1, 8, 0, 255, 10⟩ 1 ∧
    create_tiles ⟨1, 8, 0, 255, 10⟩ 1 = none := by
  have hdiv : createTilesDiverges ⟨1, 8, 0, 255, 10⟩ 1 := by
    intro fuel
    have hsy : stepY ⟨1, 8, 0, 255, 10⟩ 1 = 0 := by
      unfold stepY stepOf
      exact Nat.sqrt_eq_zero.mpr (by decide)
    show createTilesFuel _ _ fuel = none
    unfold createTilesFuel
    rw [if_neg (by decide), hsy]
    exact sweepY_zero_step fuel 1 8 (stepX ⟨1, 8, 0, 255, 10⟩ 1) 0 (by decide) fuel
  exact ⟨hdiv, hdiv _⟩

/-- C2 (code bug): the source never clamps `step_y`/`step_x` to 1.  For a
band of dimensions `(1, 9000000)` under the default budget `33554432` the
estimate is `36000000`, `rescale_factor ≈ 0.965`, and
`step_y = int(0.965 * 1) = 0`: the outer `while` loop repeats `i += 0`
forever.  The fueled embedding returns `none` for every fuel, i.e. the
tiling sweep of `_create_tiles` does not terminate. -/
theorem create_tiles_no_clamp_diverges :
    createTilesDiverges ⟨1, 9000000, 0, 255, 10⟩ 33554432 := by
  intro fuel
  have hsy : stepY ⟨1, 9000000, 0, 255, 10⟩ 33554432 = 0 := by
    unfold stepY stepOf
    exact Nat.sqrt_eq_zero.mpr (by decide)
  show createTilesFuel _ _ fuel = none
  unfold createTilesFuel
  rw [if_neg (by decide), hsy]
  exact sweepY_zero_step fuel 1 9000000 (stepX ⟨1, 9000000, 0, 255, 10⟩ 33554432) 0
    (by decide) fuel

/-- The chunk loop appends every non-empty chunk to the buffer and advances
the counter by the fixed `1024` per non-empty chunk. -/
theorem openUrlLoop_spec (chunks : List (List Nat)) :
    ∀ mem n, openUrlLoop chunks mem n =
      (mem ++ chunks.flatten,
       n + 1024 * chunks.countP (fun c => decide (c ≠ []))) := by
  induction chunks with
  | nil => intro mem n; simp [openUrlLoop]
  | cons c cs ih =>
    intro mem n
    by_cases hc : c = []
    · subst hc
      simp [openUrlLoop, ih, List.countP_cons]
    · simp only [openUrlLoop, if_neg hc, ih, List.countP_cons, List.flatten_cons]
      refine Prod.ext ?_ ?_
      · simp [List.append_assoc]
      · simp only [hc, decide_not, ne_eq, decide_eq_true_eq]
        simp [hc]
        ring

/-- C6 (amended): `open_url` writes every chunk to the buffer, but advances
the progress counter by the fixed chunk size `1024` for every non-empty chunk
regardless of the chunk's actual length, and on stream completion raises the
counter to the estimated total only when it is below it: the final counter is
`max (1024 * number of non-empty chunks) total`, not necessarily the total. -/
theorem open_url_fixed_increment (chunks : List (List Nat)) (total : Nat) :
    open_url chunks total =
      (chunks.flatten,
       max (1024 * chunks.countP (fun c => decide (c ≠ []))) total) := by
  unfold open_url
  rw [openUrlLoop_spec]
  simp only [List.nil_append, Nat.zero_add, Prod.mk.injEq]
  refine ⟨trivial, ?_⟩
  split_ifs <;> omega

/-- C6 counterexample: a stream of one full 1024-byte chunk followed by one
1-byte chunk against an estimated total of 1025.  The claim predicts a final
counter of `1024 + 1 = 1025`, forced to equal the total; the source updates
by 1024 per chunk, reaching 2048, and the final fix-up only raises the
counter when it is below the total, so the counter ends at 2048 ≠ 1025. -/
theorem open_url_counter_cex :
    (open_url [List.replicate 1024 0, [7]] 1025).2 = 2048 ∧ (2048 : Nat) ≠ 1025 := by
  constructor
  · decide
  · decide

/-- C10: for any archive byte stream whose decoded entry list is non-empty,
`open_zip_url` returns the raw bytes of the first entry.  The single-entry
precondition is never checked: the trailing entries `es` are arbitrary, the
call does not fail on archives with several entries, and entries after the
first are ignored. -/
theorem open_zip_url_first_entry (chunks : List (List Nat)) (total : Nat)
    (unzip : List Nat → List (List Nat)) (e : List Nat) (es : List (List Nat))
    (hz : unzip chunks.flatten = e :: es) :
    open_zip_url chunks total unzip = some e := by
  have hbuf : (open_url chunks total).1 = chunks.flatten := by
    unfold open_url
    rw [openUrlLoop_spec]
    simp
  show (unzip (open_url chunks total).1).head? = some e
  rw [hbuf, hz]
  rfl

/-- C10 witness: a two-chunk stream whose archive decodes to two entries;
the first entry is returned and the second is ignored. -/
theorem open_zip_url_first_entry_witness :
    demoUnzip ([[1, 2], [3]] : List (List Nat)).flatten = [1, 2, 3] :: [[9]] ∧
    open_zip_url [[1, 2], [3]] 0 demoUnzip = some [1, 2, 3] := by
  refine ⟨rfl, ?_⟩
  exact open_zip_url_first_entry [[1, 2], [3]] 0 demoUnzip [1, 2, 3] [[9]] rfl

/-- C3 counterexample: with two tiles whose first fetch task fails
permanently and whose second succeeds, the assembly loop re-raises the first
task's exception: the call yields the failure and no output matrix, so the
sibling tile's region is never written into an exposed matrix, refuting
"every other tile's region is still written" and "a per-tile failure does not
abort the assembly of sibling tiles' results". -/
theorem assemble_abort_cex :
    assemble [((⟨0, 1, 0, 2⟩ : Tile), Except.error "boom"),
              ((⟨1, 2, 0, 2⟩ : Tile), Except.ok oneBlock)] zeroBlock =
      Except.error "boom" := rfl

/-- C3 (amended): if every task before some failed task succeeded, the
assembly loop of `_download_band` stops at the failed task and the exception
propagates: the overall call reports the failure (it is not silently
successful), but no assembled matrix is produced and the sibling tasks after
the failure are never copied. -/
theorem assemble_aborts_at_failure (pre : List (Tile × Except String Block))
    (t : Tile) (e : String) (post : List (Tile × Except String Block)) :
    ∀ m, (∀ x ∈ pre, ∃ b, x.2 = Except.ok b) →
      assemble (pre ++ (t, Except.error e) :: post) m = Except.error e := by
  induction pre with
  | nil => intro m _; rfl
  | cons p ps ih =>
    intro m hok
    rcases p with ⟨tp, rp⟩
    rcases rp with e' | b
    · obtain ⟨b, hb⟩ := hok _ (List.mem_cons_self _ _)
      simp at hb
    · exact ih (writeTile m tp b) (fun x hx => hok x (List.mem_cons_of_mem _ hx))

/-- C3 witness: one successful task followed by one failed task; the
assembly aborts with the failure. -/
theorem assemble_aborts_at_failure_witness :
    (∀ x ∈ [((⟨0, 1, 0, 2⟩ : Tile), Except.ok oneBlock)],
      ∃ b, x.2 = Except.ok (ε := String) b) ∧
    assemble ([((⟨0, 1, 0, 2⟩ : Tile), Except.ok oneBlock)] ++
        ((⟨1, 2, 0, 2⟩ : Tile), Except.error "net down") :: []) zeroBlock =
      Except.error "net down" := by
  have hok : ∀ x ∈ [((⟨0, 1, 0, 2⟩ : Tile), Except.ok (ε := String) oneBlock)],
      ∃ b, x.2 = Except.ok b := by
    intro x hx
    rw [List.mem_singleton] at hx
    subst hx
    exact ⟨oneBlock, rfl⟩
  exact ⟨hok, assemble_aborts_at_failure
    [((⟨0, 1, 0, 2⟩ : Tile), Except.ok oneBlock)] ⟨1, 2, 0, 2⟩ "net down" []
    zeroBlock hok⟩

/-- C4: for an initialized downloader, `_estimate_band_size` returns
`dimensions[0] * dimensions[1] * 2 * excess_factor`: the `bitsPerSample`
value computed from the data-type range is dead, so the estimate is
independent of the band's data-type range and uses a fixed 2-byte sample
width. -/
theorem estimate_band_size_fixed_two_bytes (d0 d1 ns : Nat) (mn mx mn' mx' : Int)
    (ef : Nat) :
    estimate_band_size (some ⟨d0, d1, mn, mx, ns⟩) ef = some (d0 * d1 * 2 * ef) ∧
    estimate_band_size (some ⟨d0, d1, mn, mx, ns⟩) ef =
      estimate_band_size (some ⟨d0, d1, mn', mx', ns⟩) ef :=
  ⟨rfl, rfl⟩

/-- C5 counterexample: `Tile.size` is `int(shape[0] * shape[1] * 1.3)`; no
single overhead factor makes the documented formula
`height * width * 2 * overheadFactor` reproduce it on both a 10 × 10 tile
(size 130, forcing `o = 13/20`) and a 3 × 3 tile (size 11, forcing
`o = 11/18`). -/
theorem tile_size_not_documented_formula_cex :
    Tile.size ⟨0, 10, 0, 10⟩ = 130 ∧ Tile.size ⟨0, 3, 0, 3⟩ = 11 ∧
    ¬∃ o : Rat,
      tileSizeDocumented ⟨0, 10, 0, 10⟩ o = ((Tile.size ⟨0, 10, 0, 10⟩ : Int) : Rat) ∧
      tileSizeDocumented ⟨0, 3, 0, 3⟩ o = ((Tile.size ⟨0, 3, 0, 3⟩ : Int) : Rat) := by
  have h10 : Tile.size ⟨0, 10, 0, 10⟩ = 130 := by
    unfold Tile.size Tile.shape
    rw [Int.floor_eq_iff]
    norm_num
  have h3 : Tile.size ⟨0, 3, 0, 3⟩ = 11 := by
    unfold Tile.size Tile.shape
    rw [Int.floor_eq_iff]
    norm_num
  refine ⟨h10, h3, ?_⟩
  rintro ⟨o, h1, h2⟩
  rw [h10] at h1
  rw [h3] at h2
  unfold tileSizeDocumented Tile.shape at h1 h2
  norm_num at h1 h2
  have ho : o = 13 / 20 := by linarith
  rw [ho] at h2
  norm_num at h2

/-- C5 (amended): for every tile, the derived `size` attribute equals
`⌊shape[0] * shape[1] * 13 / 10⌋`, i.e. the `1.3`-scaled pixel count of the
source, not the `height * width * 2 * overheadFactor` formula. -/
theorem tile_size_formula (t : Tile) :
    Tile.size t = ((t.shape.1 * t.shape.2 * 13 : Nat) : Int) / 10 := by
  unfold Tile.size
  have h : ((t.shape.1 * t.shape.2 : Nat) : Rat) * (13 / 10) =
      (((t.shape.1 * t.shape.2 * 13 : Nat) : Int) : Rat) / ((10 : Nat) : Rat) := by
    push_cast
    ring
  rw [h, Rat.floor_intCast_div_natCast]
  norm_num

/-- C7: when the requested band is not contained in the image,
`download` reports the band-not-found condition (`logger.error` followed by
an early return), leaves the downloader exactly as it was — so no tiles are
created and no output matrix is assembled — and its behaviour is independent
of the tile fetcher: no fetch task is ever submitted and no network request
issued. -/
theorem download_band_not_found (st : Downloader) (img : EEImage) (band : String)
    (fetch : Tile → Except String Block)
    (hb : img.bandNames.contains band = false) :
    download st img band fetch = some (st, DownloadOutcome.bandNotFound) ∧
    ∀ fetch', download st img band fetch = download st img band fetch' := by
  constructor
  · unfold download
    rw [hb]
    rfl
  · intro fetch'
    unfold download
    rw [hb]
    simp only [Bool.false_eq_true, if_false]

/-- C7 witness: requesting band `B8` on an image carrying only `B2` and `B3`
reports band-not-found, changes nothing, and ignores the fetcher. -/
theorem download_band_not_found_witness :
    demoImage.bandNames.contains "B8" = false ∧
    download emptyDownloader demoImage "B8" demoFetch =
      some (emptyDownloader, DownloadOutcome.bandNotFound) ∧
    ∀ fetch', download emptyDownloader demoImage "B8" demoFetch =
      download emptyDownloader demoImage "B8" fetch' := by
  have hb : demoImage.bandNames.contains "B8" = false := by decide
  obtain ⟨h1, h2⟩ := download_band_not_found emptyDownloader demoImage "B8" demoFetch hb
  exact ⟨hb, h1, h2⟩

/-- C8: for every point list whose first and last elements differ,
`create_geometry` mutates the caller's list in place, appending the first
point to close the ring before building the polygon: afterwards the caller
observes a list with exactly one more element. -/
theorem create_geometry_closes_in_place (l : List GeoPoint) (p0 pn : GeoPoint)
    (hh : l.head? = some p0) (hl : l.getLast? = some pn) (hne : p0 ≠ pn) :
    ∃ g, create_geometry (GeomInput.pts l) = some (g, GeomInput.pts (l ++ [p0])) ∧
      (l ++ [p0]).length = l.length + 1 := by
  refine ⟨if (Geometry.polygon [l ++ [p0]]).isValid
      then some (Geometry.polygon [l ++ [p0]]) else none, ?_, by simp⟩
  simp only [create_geometry]
  rw [hh, hl]
  simp only [hne, ne_eq, not_false_eq_true, if_true]

/-- C8 witness: an unclosed 4-point square ring gains its closing point in
the caller-visible list, growing from 4 to 5 elements. -/
theorem create_geometry_closes_in_place_witness :
    demoRing.head? = some (0, 0) ∧ demoRing.getLast? = some (0, 1) ∧
    ((0, 0) : GeoPoint) ≠ ((0, 1) : GeoPoint) ∧
    ∃ g, create_geometry (GeomInput.pts demoRing) =
        some (g, GeomInput.pts (demoRing ++ [(0, 0)])) ∧
      (demoRing ++ [(0, 0)]).length = demoRing.length + 1 := by
  have hne : ((0, 0) : GeoPoint) ≠ ((0, 1) : GeoPoint) := by
    intro h
    simpa using congrArg Prod.snd h
  exact ⟨rfl, rfl, hne,
    create_geometry_closes_in_place demoRing (0, 0) (0, 1) rfl rfl hne⟩

/-- C9: a `download` call whose requested band is missing from the image has
no effect at all on the downloader's state: the `img`, `band`, `band_info`,
`tiles` and `array` fields all keep their prior values. -/
theorem download_band_not_found_frame (st st' : Downloader) (img : EEImage)
    (band : String) (fetch : Tile → Except String Block) (out : DownloadOutcome)
    (hb : img.bandNames.contains band = false)
    (h : download st img band fetch = some (st', out)) :
    st'.img = st.img ∧ st'.band = st.band ∧ st'.band_info = st.band_info ∧
    st'.tiles = st.tiles ∧ st'.array = st.array := by
  unfold download at h
  rw [hb] at h
  simp only [Bool.false_eq_true, if_false, Option.some.injEq, Prod.mk.injEq] at h
  obtain ⟨h1, _⟩ := h
  subst h1
  exact ⟨rfl, rfl, rfl, rfl, rfl⟩

/-- C9 witness: the failed request for band `B8` leaves the fresh downloader
untouched. -/
theorem download_band_not_found_frame_witness :
    demoImage.bandNames.contains "B8" = false ∧
    download emptyDownloader demoImage "B8" demoFetch =
      some (emptyDownloader, DownloadOutcome.bandNotFound) ∧
    emptyDownloader.img = emptyDownloader.img ∧
    emptyDownloader.band = emptyDownloader.band ∧
    emptyDownloader.band_info = emptyDownloader.band_info ∧
    emptyDownloader.tiles = emptyDownloader.tiles ∧
    emptyDownloader.array = emptyDownloader.array := by
  have hb : demoImage.bandNames.contains "B8" = false := by decide
  have heq : download emptyDownloader demoImage "B8" demoFetch =
      some (emptyDownloader, DownloadOutcome.bandNotFound) := by
    unfold download
    rw [hb]
    rfl
  exact ⟨hb, heq, download_band_not_found_frame emptyDownloader emptyDownloader
    demoImage "B8" demoFetch DownloadOutcome.bandNotFound hb heq⟩
